import Mathlib

/-!
Verification of the OPUS dataset adapter
(`tensorflow_datasets/translate/opus.py`).

We shallowly embed the data model and operations of the module:
the static sub-corpus catalog with its derived language pairs
(`SubDataset.__init__`), the pair-filtered subset resolution
(`Opus.subsets`), path construction (`Opus._split_generators`), and
line-paired example generation (`Opus._generate_examples`).
External collaborators (the download manager and the file system) are
modelled as function parameters from locators/paths to strings.
-/

set_option autoImplicit false

/-- A sub-corpus entry, mirroring the attributes stored by
`SubDataset.__init__`: static metadata plus the derived
`language_pairs` list. -/
structure SubDataset where
  name : String
  description : String
  homepage : String
  url : String
  languages : List String
  filename : String
  language_pairs : List (String × String)
deriving DecidableEq

/-- The pair-derivation loop of `SubDataset.__init__`:
`for idx, source in enumerate(languages): for target in languages[idx+1:]:
language_pairs.append((source, target))`. -/
def derivePairs : List String → List (String × String)
  | [] => []
  | source :: rest => rest.map (fun target => (source, target)) ++ derivePairs rest

/-- The `SubDataset` constructor: stores the metadata and computes
`language_pairs` from `languages` via `derivePairs`. -/
def mkSubDataset (name description homepage url : String) (languages : List String)
    (filename : String) : SubDataset :=
  ⟨name, description, homepage, url, languages, filename, derivePairs languages⟩

def EMEA : SubDataset :=
  mkSubDataset "EMEA"
    "A parallel corpus made out of PDF documents from the European Medicines Agency."
    "http://opus.nlpl.eu/EMEA.php"
    "http://opus.nlpl.eu/download.php?f=EMEA/v3/moses/"
    ["de", "en", "es"] "EMEA"

def JRC_Acquis : SubDataset :=
  mkSubDataset "JRC-Acquis"
    "A collection of legislative text of the European Union and currently comprises selected texts written between the 1950s and now."
    "http://opus.nlpl.eu/JRC-Acquis.php"
    "http://opus.nlpl.eu/download.php?f=JRC-Acquis/"
    ["de", "en", "es"] "JRC-Acquis"

def Tanzil : SubDataset :=
  mkSubDataset "Tanzil"
    "A collection of Quran translations compiled by the Tanzil project."
    "http://opus.nlpl.eu/Tanzil.php"
    "http://opus.nlpl.eu/download.php?f=Tanzil/v1/moses/"
    ["de", "en", "es"] "Tanzil"

def GNOME : SubDataset :=
  mkSubDataset "GNOME"
    "A parallel corpus of GNOME localization files. Source: https://l10n.gnome.org"
    "http://opus.nlpl.eu/GNOME.php"
    "http://opus.nlpl.eu/download.php?f=GNOME/v1/moses/"
    ["de", "en", "es"] "GNOME"

def KDE4 : SubDataset :=
  mkSubDataset "KDE4"
    "A parallel corpus of KDE4 localization files (v.2)."
    "http://opus.nlpl.eu/KDE4.php"
    "http://opus.nlpl.eu/download.php?f=KDE4/v2/moses/"
    ["de", "en", "es"] "KDE4"

def PHP : SubDataset :=
  mkSubDataset "PHP"
    "A parallel corpus originally extracted from http://se.php.net/download-docs.php."
    "http://opus.nlpl.eu/PHP.php"
    "http://opus.nlpl.eu/download.php?f=PHP/v1/moses/"
    ["de", "en", "es"] "PHP"

def Ubuntu : SubDataset :=
  mkSubDataset "Ubuntu"
    "A parallel corpus of Ubuntu localization files. Source: https://translations.launchpad.net"
    "http://opus.nlpl.eu/Ubuntu.php"
    "http://opus.nlpl.eu/download.php?f=Ubuntu/v14.10/moses/"
    ["de", "en", "es"] "Ubuntu"

def OpenOffice : SubDataset :=
  mkSubDataset "OpenOffice"
    "A collection of documents from http://www.openoffice.org/."
    "http://opus.nlpl.eu/OpenOffice.php"
    "http://opus.nlpl.eu/download.php?f=OpenOffice/v3/moses/"
    ["de", "en_GB", "es"] "OpenOffice"

def OpenSubtitles : SubDataset :=
  mkSubDataset "OpenSubtitles"
    "A new collection of translated movie subtitles from http://www.opensubtitles.org/"
    "http://opus.nlpl.eu/OpenSubtitles-v2018.php"
    "http://opus.nlpl.eu/download.php?f=OpenSubtitles/v2018/"
    ["de", "en", "es"] "OpenSubtitles"

/-- The list the module builds `DATASET_MAP` from, in source order. -/
def datasetList : List SubDataset :=
  [EMEA, JRC_Acquis, Tanzil, GNOME, KDE4, PHP, Ubuntu, OpenOffice, OpenSubtitles]

/-- `DATASET_MAP[name]` as a partial lookup: the Python dict maps each
sub-dataset name to its entry; a missing key raises `KeyError`, modelled
by `none`. -/
def DATASET_MAP (name : String) : Option SubDataset :=
  datasetList.find? (fun d => d.name == name)

/-- The list comprehension
`[DATASET_MAP[name] for name in self.builder_config.subsets]`:
looks every name up in order and fails (Python `KeyError`) at the first
name absent from the catalog. -/
def lookupAll : List String → Except String (List SubDataset)
  | [] => .ok []
  | n :: ns =>
    match DATASET_MAP n with
    | none => .error n
    | some d =>
      match lookupAll ns with
      | .error e => .error e
      | .ok ds => .ok (d :: ds)

/-- `Opus.subsets`: look every configured name up in `DATASET_MAP`, then
keep the datasets with `(source, target) in dataset.language_pairs`
(an ordered-tuple membership test). -/
def opusSubsets (pair : String × String) (names : List String) :
    Except String (List SubDataset) :=
  match lookupAll names with
  | .error e => .error e
  | .ok ds => .ok (ds.filter (fun d => d.language_pairs.contains pair))

/-- The per-subset dict built by `Opus._split_generators`:
`{"name": ..., "source_file": ..., "target_file": ...}`. -/
structure ResolvedSubset where
  name : String
  source_file : String
  target_file : String
deriving DecidableEq

/-- Two-argument `os.path.join` on POSIX: an absolute second component
replaces the first; otherwise the parts are glued, inserting `/` unless
the first part is empty or already ends in `/`. -/
def osPathJoin (a b : String) : String :=
  if b.startsWith "/" then b
  else if a = "" || a.endsWith "/" then a ++ b
  else a ++ "/" ++ b

/-- `Opus._split_generators`: for each pair-supporting subset, download
`join(item.url, "{source}-{target}.txt.zip")` (the download manager is
the function `dl` from locator to extracted directory) and record the
source/target file paths inside the extracted directory. -/
def opusSplitGenerators (dl : String → String) (pair : String × String)
    (names : List String) : Except String (List ResolvedSubset) :=
  match opusSubsets pair names with
  | .error e => .error e
  | .ok subs =>
    let fileExt := pair.1 ++ "-" ++ pair.2
    .ok (subs.map (fun item =>
      let dlDir := dl (osPathJoin item.url (fileExt ++ ".txt.zip"))
      ⟨item.name,
       osPathJoin dlDir (item.filename ++ "." ++ fileExt ++ "." ++ pair.1),
       osPathJoin dlDir (item.filename ++ "." ++ fileExt ++ "." ++ pair.2)⟩))

/-- Python `str.split("\n")` on the character list of the text: splitting
on every newline, keeping empty chunks, so the result always has one more
chunk than there are newlines (in particular `splitNl [] = [[]]`). -/
def splitNl : List Char → List (List Char)
  | [] => [[]]
  | c :: rest =>
    if c = '\n' then [] :: splitNl rest
    else
      match splitNl rest with
      | [] => [[c]]
      | h :: t => (c :: h) :: t

/-- `f.read().split("\n")`: the line list of a file content. -/
def pyLines (s : String) : List String :=
  (splitNl s.data).map (fun l => String.mk l)

/-- The dict `result = {source: source_sentence, target: target_sentence}`
as an association list: when the two language codes coincide the second
assignment overwrites the first, leaving a single entry. -/
def mkResult (sl tl s t : String) : List (String × String) :=
  if sl = tl then [(sl, t)] else [(sl, s), (tl, t)]

/-- `all(result.values())`: every value is a truthy (non-empty) string. -/
def allValues (r : List (String × String)) : Bool :=
  r.all (fun f => f.2 != "")

/-- The loop `for idx, (source_sentence, target_sentence) in
enumerate(zip(source_sentences, target_sentences))` of
`Opus._generate_examples`, with the running index made explicit:
yield `("{name}/{idx}", result)` whenever `all(result.values())`. -/
def pairLoop (name sl tl : String) :
    Nat → List (String × String) → List (String × List (String × String))
  | _, [] => []
  | idx, (s, t) :: rest =>
    let result := mkResult sl tl s t
    if allValues result then
      (name ++ "/" ++ toString idx, result) :: pairLoop name sl tl (idx + 1) rest
    else
      pairLoop name sl tl (idx + 1) rest

/-- Example generation for one resolved subset, given the two file
contents: split both on newlines, zip positionally, and emit keyed
records for the indices whose record survives `all(result.values())`. -/
def readPairs (name sl tl srcText tgtText : String) :
    List (String × List (String × String)) :=
  pairLoop name sl tl 0 ((pyLines srcText).zip (pyLines tgtText))

/-- `Opus._generate_examples` over the whole resolved-subset list: the
file system is the function `fileRead` from path to content; subsets are
consumed strictly in sequence. -/
def generateExamples (fileRead : String → String) (sl tl : String) :
    List ResolvedSubset → List (String × List (String × String))
  | [] => []
  | item :: rest =>
    readPairs item.name sl tl (fileRead item.source_file) (fileRead item.target_file)
      ++ generateExamples fileRead sl tl rest

example : derivePairs ["de", "en", "es"] = [("de", "en"), ("de", "es"), ("en", "es")] := by
  decide

example : pyLines "a\nb\n\nc" = ["a", "b", "", "c"] := by decide

example :
    readPairs "X" "en" "de" "a\nb\n\nc" "x\ny\nz\nw" =
      [("X/0", [("en", "a"), ("de", "x")]),
       ("X/1", [("en", "b"), ("de", "y")]),
       ("X/3", [("en", "c"), ("de", "w")])] := by
  decide

example : (opusSubsets ("en", "de") ["EMEA"]).map (List.map SubDataset.name) = .ok [] := by
  rfl

example :
    (opusSubsets ("de", "en") ["EMEA", "Tanzil"]).map (List.map SubDataset.name) =
      .ok ["EMEA", "Tanzil"] := by
  rfl

/-! ### Resolution lemmas (`Opus.subsets`) -/

theorem lookupAll_ok_eq : ∀ {names : List String} {ds : List SubDataset},
    lookupAll names = .ok ds → ds = names.filterMap DATASET_MAP := by
  intro names
  induction names with
  | nil =>
    intro ds h
    simp only [lookupAll] at h
    cases h
    rfl
  | cons n ns ih =>
    intro ds h
    simp only [lookupAll] at h
    cases hn : DATASET_MAP n with
    | none => rw [hn] at h; cases h
    | some d =>
      rw [hn] at h
      cases hl : lookupAll ns with
      | error e => rw [hl] at h; cases h
      | ok ds2 =>
        rw [hl] at h
        cases h
        simp [List.filterMap_cons, hn, ih hl]

theorem lookupAll_of_isSome : ∀ {names : List String},
    (∀ n ∈ names, (DATASET_MAP n).isSome) →
    lookupAll names = .ok (names.filterMap DATASET_MAP) := by
  intro names
  induction names with
  | nil => intro _; rfl
  | cons n ns ih =>
    intro h
    have hn : (DATASET_MAP n).isSome := h n (List.mem_cons_self n ns)
    cases hd : DATASET_MAP n with
    | none => rw [hd] at hn; cases hn
    | some d =>
      have hns := ih (fun m hm => h m (List.mem_cons_of_mem n hm))
      simp only [lookupAll, hd, hns, List.filterMap_cons]

theorem lookupAll_error_of_none : ∀ {names : List String} {n : String},
    n ∈ names → DATASET_MAP n = none → ∃ e, lookupAll names = .error e := by
  intro names
  induction names with
  | nil => intro n h; cases h
  | cons m ms ih =>
    intro n hmem hnone
    cases hd : DATASET_MAP m with
    | none => exact ⟨m, by simp only [lookupAll, hd]⟩
    | some d =>
      rcases List.mem_cons.mp hmem with h | h
      · subst h; rw [hd] at hnone; cases hnone
      · rcases ih h hnone with ⟨e, he⟩
        exact ⟨e, by simp only [lookupAll, hd, he]⟩

theorem opusSubsets_ok_eq {pair : String × String} {names : List String}
    {ds : List SubDataset} (h : opusSubsets pair names = .ok ds) :
    ds = (names.filterMap DATASET_MAP).filter
      (fun d => d.language_pairs.contains pair) := by
  unfold opusSubsets at h
  cases hl : lookupAll names with
  | error e => rw [hl] at h; cases h
  | ok looked =>
    rw [hl] at h
    cases h
    rw [lookupAll_ok_eq hl]

/-! ### Pair-derivation lemmas (`SubDataset.__init__`) -/

theorem mem_derivePairs_cons {x : String} {ls : List String} {a b : String} :
    (a, b) ∈ derivePairs (x :: ls) ↔ (a = x ∧ b ∈ ls) ∨ (a, b) ∈ derivePairs ls := by
  simp only [derivePairs, List.mem_append, List.mem_map, Prod.mk.injEq]
  constructor
  · rintro (⟨t, ht, hx, hb⟩ | h)
    · exact Or.inl ⟨hx.symm, hb ▸ ht⟩
    · exact Or.inr h
  · rintro (⟨hx, hb⟩ | h)
    · exact Or.inl ⟨b, hb, hx.symm, rfl⟩
    · exact Or.inr h

theorem mem_of_mem_derivePairs : ∀ {L : List String} {a b : String},
    (a, b) ∈ derivePairs L → a ∈ L ∧ b ∈ L := by
  intro L
  induction L with
  | nil => intro a b h; cases h
  | cons x ls ih =>
    intro a b h
    rcases mem_derivePairs_cons.mp h with ⟨ha, hb⟩ | h2
    · exact ⟨ha ▸ List.mem_cons_self x ls, List.mem_cons_of_mem x hb⟩
    · rcases ih h2 with ⟨h1, h2'⟩
      exact ⟨List.mem_cons_of_mem x h1, List.mem_cons_of_mem x h2'⟩

theorem ne_of_mem_derivePairs : ∀ {L : List String}, L.Nodup →
    ∀ {a b : String}, (a, b) ∈ derivePairs L → a ≠ b := by
  intro L
  induction L with
  | nil => intro _ a b h; cases h
  | cons x ls ih =>
    intro hnd a b h
    rcases List.nodup_cons.mp hnd with ⟨hx, hls⟩
    rcases mem_derivePairs_cons.mp h with ⟨ha, hb⟩ | h2
    · intro hab
      exact hx (ha ▸ hab ▸ hb)
    · exact ih hls h2

theorem derivePairs_asymm : ∀ {L : List String}, L.Nodup →
    ∀ {a b : String}, (a, b) ∈ derivePairs L → (b, a) ∉ derivePairs L := by
  intro L
  induction L with
  | nil => intro _ a b h; cases h
  | cons x ls ih =>
    intro hnd a b h hba
    rcases List.nodup_cons.mp hnd with ⟨hx, hls⟩
    rcases mem_derivePairs_cons.mp h with ⟨ha, hb⟩ | h2
    · rcases mem_derivePairs_cons.mp hba with ⟨hb', ha'⟩ | hba2
      · exact hx (hb' ▸ hb)
      · exact hx (ha ▸ (mem_of_mem_derivePairs hba2).2)
    · rcases mem_derivePairs_cons.mp hba with ⟨hb', ha'⟩ | hba2
      · exact hx (hb' ▸ (mem_of_mem_derivePairs h2).2)
      · exact ih hls h2 hba2

theorem derivePairs_total : ∀ {L : List String}, L.Nodup →
    ∀ {a b : String}, a ∈ L → b ∈ L → a ≠ b →
    (a, b) ∈ derivePairs L ∨ (b, a) ∈ derivePairs L := by
  intro L
  induction L with
  | nil => intro _ a b h; cases h
  | cons x ls ih =>
    intro hnd a b ha hb hne
    rcases List.nodup_cons.mp hnd with ⟨_, hls⟩
    rcases List.mem_cons.mp ha with hax | hals
    · rcases List.mem_cons.mp hb with hbx | hbls
      · exact absurd (hax.trans hbx.symm) hne
      · exact Or.inl (mem_derivePairs_cons.mpr (Or.inl ⟨hax, hbls⟩))
    · rcases List.mem_cons.mp hb with hbx | hbls
      · exact Or.inr (mem_derivePairs_cons.mpr (Or.inl ⟨hbx, hals⟩))
      · rcases ih hls hals hbls hne with h | h
        · exact Or.inl (mem_derivePairs_cons.mpr (Or.inr h))
        · exact Or.inr (mem_derivePairs_cons.mpr (Or.inr h))

theorem derivePairs_length : ∀ L : List String,
    (derivePairs L).length = Nat.choose L.length 2 := by
  intro L
  induction L with
  | nil => rfl
  | cons x ls ih =>
    simp only [derivePairs, List.length_append, List.length_map, List.length_cons, ih]
    rw [Nat.choose_succ_succ ls.length 1, Nat.choose_one_right]

/-! ### Example-generation lemmas (`Opus._generate_examples`) -/

theorem allValues_eq_true_iff {r : List (String × String)} :
    allValues r = true ↔ ∀ f ∈ r, f.2 ≠ "" := by
  simp [allValues, List.all_eq_true, bne_iff_ne]

theorem allValues_mkResult_of_ne {sl tl s t : String} (h : sl ≠ tl) :
    allValues (mkResult sl tl s t) = true ↔ (s ≠ "" ∧ t ≠ "") := by
  rw [mkResult, if_neg h, allValues_eq_true_iff]
  constructor
  · intro hf
    exact ⟨hf (sl, s) (List.mem_cons_self _ _),
           hf (tl, t) (List.mem_cons_of_mem _ (List.mem_cons_self _ _))⟩
  · rintro ⟨hs, ht⟩ f hf
    rcases List.mem_cons.mp hf with h1 | h1
    · rw [h1]; exact hs
    · rcases List.mem_cons.mp h1 with h2 | h2
      · rw [h2]; exact ht
      · cases h2

theorem pairLoop_mem_inv {name sl tl : String} :
    ∀ {ps : List (String × String)} {start : Nat}
      {r : String × List (String × String)},
      r ∈ pairLoop name sl tl start ps →
      ∃ i s t, ps.get? i = some (s, t) ∧ allValues (mkResult sl tl s t) = true ∧
        r = (name ++ "/" ++ toString (start + i), mkResult sl tl s t) := by
  intro ps
  induction ps with
  | nil => intro start r h; cases h
  | cons p rest ih =>
    intro start r h
    obtain ⟨s0, t0⟩ := p
    by_cases hav : allValues (mkResult sl tl s0 t0) = true
    · simp only [pairLoop, hav, if_true] at h
      rcases List.mem_cons.mp h with h1 | h1
      · exact ⟨0, s0, t0, List.get?_cons_zero, hav, by rw [h1, Nat.add_zero]⟩
      · rcases ih h1 with ⟨i, s, t, hg, hv, hr⟩
        have harr : start + 1 + i = start + (i + 1) := by omega
        exact ⟨i + 1, s, t, by rw [List.get?_cons_succ]; exact hg, hv,
          by rw [hr, harr]⟩
    · simp only [pairLoop, hav, if_false] at h
      rcases ih h with ⟨i, s, t, hg, hv, hr⟩
      have harr : start + 1 + i = start + (i + 1) := by omega
      exact ⟨i + 1, s, t, by rw [List.get?_cons_succ]; exact hg, hv,
        by rw [hr, harr]⟩

theorem pairLoop_mem_of {name sl tl : String} :
    ∀ {ps : List (String × String)} {start i : Nat} {s t : String},
      ps.get? i = some (s, t) → allValues (mkResult sl tl s t) = true →
      (name ++ "/" ++ toString (start + i), mkResult sl tl s t) ∈
        pairLoop name sl tl start ps := by
  intro ps
  induction ps with
  | nil => intro start i s t hg; rw [List.get?_nil] at hg; cases hg
  | cons p rest ih =>
    intro start i s t hg hv
    obtain ⟨s0, t0⟩ := p
    cases i with
    | zero =>
      rw [List.get?_cons_zero] at hg
      injection hg with hg
      cases hg
      simp only [pairLoop, hv, if_true, Nat.add_zero]
      exact List.mem_cons_self _ _
    | succ j =>
      rw [List.get?_cons_succ] at hg
      have h' := @ih (start + 1) j s t hg hv
      have harr : start + 1 + j = start + (j + 1) := by omega
      rw [harr] at h'
      by_cases hav : allValues (mkResult sl tl s0 t0) = true
      · simp only [pairLoop, hav, if_true]
        exact List.mem_cons_of_mem _ h'
      · simp only [pairLoop, hav, if_false]
        exact h'

theorem pairLoop_keys {name sl tl : String} :
    ∀ {ps : List (String × String)} {start : Nat},
      (∀ p ∈ ps, allValues (mkResult sl tl p.1 p.2) = true) →
      (pairLoop name sl tl start ps).map Prod.fst =
        (List.range ps.length).map (fun i => name ++ "/" ++ toString (start + i)) := by
  intro ps
  induction ps with
  | nil => intro start _; rfl
  | cons p rest ih =>
    intro start h
    obtain ⟨s, t⟩ := p
    have hv := h (s, t) (List.mem_cons_self _ _)
    simp only [pairLoop, hv, if_true, List.map_cons, List.length_cons]
    rw [ih (fun q hq => h q (List.mem_cons_of_mem _ hq))]
    rw [List.range_succ_eq_map, List.map_cons, List.map_map]
    rw [Nat.add_zero]
    refine congrArg _ (List.map_congr_left (fun i _ => ?_))
    simp only [Function.comp_apply]
    have harr : start + 1 + i = start + Nat.succ i := by omega
    rw [harr]

/-! ### Newline-split lemmas (`str.split` on the newline character) -/

theorem splitNl_ne_nil : ∀ cs : List Char, splitNl cs ≠ [] := by
  intro cs
  cases cs with
  | nil => exact fun h => by cases h
  | cons c rest =>
    by_cases hc : c = '\n'
    · simp only [splitNl, hc, if_true]
      exact fun h => by cases h
    · simp only [splitNl, hc, if_false]
      cases hsp : splitNl rest with
      | nil => exact fun h => by cases h
      | cons h t => exact fun h2 => by cases h2

theorem eq_nil_of_splitNl_eq : ∀ cs : List Char, splitNl cs = [[]] → cs = [] := by
  intro cs
  cases cs with
  | nil => intro _; rfl
  | cons c rest =>
    intro h
    by_cases hc : c = '\n'
    · simp only [splitNl, hc, if_true] at h
      injection h with _ h2
      exact absurd h2 (splitNl_ne_nil rest)
    · simp only [splitNl, hc, if_false] at h
      cases hsp : splitNl rest with
      | nil => rw [hsp] at h; cases h
      | cons hd tl =>
        rw [hsp] at h
        injection h with h1 h2
        cases h1

theorem splitNl_cons (c : Char) (rest : List Char) :
    splitNl (c :: rest) =
      if c = '\n' then [] :: splitNl rest
      else
        match splitNl rest with
        | [] => [[c]]
        | h :: t => (c :: h) :: t := rfl

theorem splitNl_getLast_of_newline : ∀ cs : List Char,
    cs.getLast? = some '\n' → (splitNl cs).getLast? = some [] := by
  intro cs
  induction cs with
  | nil => intro h; cases h
  | cons c rest ih =>
    intro h
    cases rest with
    | nil =>
      simp only [List.getLast?_singleton] at h
      injection h with h
      simp [splitNl, h]
    | cons r rs =>
      rw [List.getLast?_cons_cons] at h
      have hlast := ih h
      by_cases hc : c = '\n'
      · rw [splitNl_cons, if_pos hc]
        cases hsp : splitNl (r :: rs) with
        | nil => exact absurd hsp (splitNl_ne_nil _)
        | cons hd tl =>
          rw [hsp] at hlast
          rw [List.getLast?_cons_cons]
          exact hlast
      · rw [splitNl_cons, if_neg hc]
        cases hsp : splitNl (r :: rs) with
        | nil => exact absurd hsp (splitNl_ne_nil _)
        | cons hd tl =>
          rw [hsp] at hlast
          cases tl with
          | nil =>
            simp only [List.getLast?_singleton] at hlast
            injection hlast with hlast
            have h2 : splitNl (r :: rs) = [[]] := by rw [hsp, hlast]
            have h3 := eq_nil_of_splitNl_eq _ h2
            cases h3
          | cons tl1 tls =>
            rw [List.getLast?_cons_cons] at hlast
            show ((c :: hd) :: tl1 :: tls).getLast? = some []
            rw [List.getLast?_cons_cons]
            exact hlast

theorem pyLines_getLast_of_newline {s : String} (h : s.data.getLast? = some '\n') :
    (pyLines s).getLast? = some "" := by
  rw [pyLines, List.getLast?_map, splitNl_getLast_of_newline s.data h]
  rfl

theorem contains_eq_true_iff_mem {l : List (String × String)} {a : String × String} :
    l.contains a = true ↔ a ∈ l := by
  simp [List.elem_iff]

/-! ### Claim theorems -/

/-- C1 (counterexample): the pair membership test of `Opus.subsets` is NOT
order-insensitive. `("de", "en")` appears in the derived pairs of the
catalog entry for `"EMEA"`, and requesting `("de", "en")` selects it, yet
requesting the reversed pair `("en", "de")` selects no corpus at all —
refuting the claim that requesting `(s, t)` and `(t, s)` select exactly
the same corpora. -/
theorem c1_counterexample :
    (DATASET_MAP "EMEA").map (fun d => d.language_pairs.contains ("de", "en")) =
      some true ∧
    (opusSubsets ("de", "en") ["EMEA"]).map (List.map SubDataset.name) =
      .ok ["EMEA"] ∧
    (opusSubsets ("en", "de") ["EMEA"]).map (List.map SubDataset.name) = .ok [] :=
  ⟨rfl, rfl, rfl⟩

/-- C1 (amended): a corpus named in the subset list is included in the
resolved build if and only if the requested `(source, target)` pair, in
exactly the requested order, appears in the corpus's derived
`language_pairs`; membership in the reversed order does not qualify. -/
theorem c1_amended_member_iff_ordered_pair (pair : String × String)
    (names : List String) (ds : List SubDataset)
    (h : opusSubsets pair names = .ok ds) :
    ∀ d, d ∈ ds ↔ (d ∈ names.filterMap DATASET_MAP ∧ pair ∈ d.language_pairs) := by
  intro d
  rw [opusSubsets_ok_eq h, List.mem_filter, contains_eq_true_iff_mem]

/-- C1 witness: instantiation at the pair `("de", "en")`, the names
`["EMEA", "Tanzil"]` and the corpus `EMEA`. -/
theorem c1_amended_witness :
    EMEA ∈ [EMEA, Tanzil] ↔
      (EMEA ∈ (["EMEA", "Tanzil"] : List String).filterMap DATASET_MAP ∧
        ("de", "en") ∈ EMEA.language_pairs) :=
  c1_amended_member_iff_ordered_pair ("de", "en") ["EMEA", "Tanzil"] [EMEA, Tanzil] rfl
    EMEA

/-- C2 (counterexample): the derived pair collection is NOT symmetric
under swapping. For the language list `["de", "en", "es"]` it contains
`("de", "en")` but not `("en", "de")`, refuting "contains `(a, b)` iff it
contains `(b, a)`". -/
theorem c2_counterexample :
    ("de", "en") ∈ derivePairs ["de", "en", "es"] ∧
    ("en", "de") ∉ derivePairs ["de", "en", "es"] := by
  decide

/-- C2 (amended): for a list `L` of `N` distinct codes, `derivePairs L`
has exactly `C(N, 2)` elements, each a pair of two distinct elements of
`L`, and for distinct `a, b ∈ L` it contains `(a, b)` if and only if it
does NOT contain `(b, a)`: exactly one orientation of each unordered pair
is present, not both. -/
theorem c2_amended_pairs_characterization (L : List String) (h : L.Nodup) :
    (derivePairs L).length = Nat.choose L.length 2 ∧
    (∀ p ∈ derivePairs L, p.1 ∈ L ∧ p.2 ∈ L ∧ p.1 ≠ p.2) ∧
    (∀ a b, a ∈ L → b ∈ L → a ≠ b →
      ((a, b) ∈ derivePairs L ↔ (b, a) ∉ derivePairs L)) := by
  refine ⟨derivePairs_length L, ?_, ?_⟩
  · rintro ⟨a, b⟩ hp
    rcases mem_of_mem_derivePairs hp with ⟨h1, h2⟩
    exact ⟨h1, h2, ne_of_mem_derivePairs h hp⟩
  · intro a b ha hb hne
    constructor
    · exact fun hab => derivePairs_asymm h hab
    · intro hba
      rcases derivePairs_total h ha hb hne with h1 | h1
      · exact h1
      · exact absurd h1 hba

/-- C2 witness: instantiation at the catalog language list
`["de", "en", "es"]`. -/
theorem c2_amended_witness :
    (derivePairs ["de", "en", "es"]).length = Nat.choose 3 2 ∧
    (∀ p ∈ derivePairs ["de", "en", "es"],
      p.1 ∈ ["de", "en", "es"] ∧ p.2 ∈ ["de", "en", "es"] ∧ p.1 ≠ p.2) ∧
    (∀ a b, a ∈ ["de", "en", "es"] → b ∈ ["de", "en", "es"] → a ≠ b →
      ((a, b) ∈ derivePairs ["de", "en", "es"] ↔
        (b, a) ∉ derivePairs ["de", "en", "es"])) :=
  c2_amended_pairs_characterization ["de", "en", "es"] (by decide)

/-- C3: when every requested name is present in the catalog, resolution
succeeds; it returns at most `names.length` entries, every returned
corpus supports the requested pair (ordered membership), and the output
is exactly the stable filter of the looked-up corpora in input order —
non-supporting corpora are silently omitted without error. -/
theorem c3_resolve_stable_filter (pair : String × String) (names : List String)
    (h : ∀ n ∈ names, (DATASET_MAP n).isSome) :
    ∃ ds, opusSubsets pair names = .ok ds ∧
      ds.length ≤ names.length ∧
      (∀ d ∈ ds, pair ∈ d.language_pairs) ∧
      ds = (names.filterMap DATASET_MAP).filter
        (fun d => d.language_pairs.contains pair) := by
  have hl := lookupAll_of_isSome h
  refine ⟨(names.filterMap DATASET_MAP).filter
      (fun d => d.language_pairs.contains pair), ?_, ?_, ?_, rfl⟩
  · unfold opusSubsets
    rw [hl]
  · exact le_trans (List.length_filter_le _ _) (List.length_filterMap_le _ _)
  · intro d hd
    exact contains_eq_true_iff_mem.mp (List.mem_filter.mp hd).2

/-- C3 witness: instantiation at the pair `("de", "en")` and names
`["EMEA", "Tanzil"]`, both present in the catalog. -/
theorem c3_witness :
    ∃ ds, opusSubsets ("de", "en") ["EMEA", "Tanzil"] = .ok ds ∧
      ds.length ≤ (["EMEA", "Tanzil"] : List String).length ∧
      (∀ d ∈ ds, ("de", "en") ∈ d.language_pairs) ∧
      ds = ((["EMEA", "Tanzil"] : List String).filterMap DATASET_MAP).filter
        (fun d => d.language_pairs.contains ("de", "en")) :=
  c3_resolve_stable_filter ("de", "en") ["EMEA", "Tanzil"] (by decide)

/-- C4: if any requested name is absent from the catalog, resolution
fails with a lookup error (Python `KeyError`) instead of silently
skipping the unknown name. -/
theorem c4_unknown_name_fails (pair : String × String) (names : List String)
    (n : String) (h1 : n ∈ names) (h2 : DATASET_MAP n = none) :
    ∃ e, opusSubsets pair names = .error e := by
  rcases lookupAll_error_of_none h1 h2 with ⟨e, he⟩
  refine ⟨e, ?_⟩
  unfold opusSubsets
  rw [he]

/-- C4 witness: `"WMT"` is not a catalog name, so resolving
`["EMEA", "WMT"]` fails. -/
theorem c4_witness :
    "WMT" ∈ (["EMEA", "WMT"] : List String) ∧
    DATASET_MAP "WMT" = none ∧
    ∃ e, opusSubsets ("de", "en") ["EMEA", "WMT"] = .error e :=
  ⟨by decide, by decide,
    c4_unknown_name_fails ("de", "en") ["EMEA", "WMT"] "WMT" (by decide) (by decide)⟩

/-- C5: with distinct source/target codes, example generation emits the
record for line index `i` if and only if both the source line and the
target line at `i` are non-empty strings (the exact empty string is the
only invalid value); and for same-length inputs whose line pairs are all
non-empty, it emits exactly one record per index, keyed
`"{name}/0" … "{name}/{N-1}"` in order. -/
theorem c5_record_iff_both_nonempty (name sl tl st tt : String) (h : sl ≠ tl) :
    (∀ i s t, (pyLines st).get? i = some s → (pyLines tt).get? i = some t →
      ((name ++ "/" ++ toString i, [(sl, s), (tl, t)]) ∈
          readPairs name sl tl st tt ↔ (s ≠ "" ∧ t ≠ ""))) ∧
    ((pyLines st).length = (pyLines tt).length →
      (∀ p ∈ (pyLines st).zip (pyLines tt), p.1 ≠ "" ∧ p.2 ≠ "") →
      (readPairs name sl tl st tt).map Prod.fst =
        (List.range (pyLines st).length).map (fun i => name ++ "/" ++ toString i)) := by
  constructor
  · intro i s t hgs hgt
    constructor
    · intro hmem
      rcases pairLoop_mem_inv hmem with ⟨j, s', t', hg, hv, hr⟩
      have h2 : [(sl, s), (tl, t)] = mkResult sl tl s' t' := congrArg Prod.snd hr
      rw [mkResult, if_neg h] at h2
      simp only [List.cons.injEq, Prod.mk.injEq, true_and, and_true] at h2
      obtain ⟨hs', ht'⟩ := h2
      have hv2 := (allValues_mkResult_of_ne h).mp hv
      exact ⟨by rw [hs']; exact hv2.1, by rw [ht']; exact hv2.2⟩
    · rintro ⟨hs, ht⟩
      have hzip : ((pyLines st).zip (pyLines tt)).get? i = some (s, t) :=
        (List.get?_zip_eq_some _ _ _ _).mpr ⟨hgs, hgt⟩
      have hv : allValues (mkResult sl tl s t) = true :=
        (allValues_mkResult_of_ne h).mpr ⟨hs, ht⟩
      have hmem := @pairLoop_mem_of name sl tl ((pyLines st).zip (pyLines tt)) 0 i s t
        hzip hv
      rw [Nat.zero_add, mkResult, if_neg h] at hmem
      exact hmem
  · intro hlen hne
    have hforall : ∀ p ∈ (pyLines st).zip (pyLines tt),
        allValues (mkResult sl tl p.1 p.2) = true := by
      intro p hp
      rcases hne p hp with ⟨h1, h2⟩
      exact (allValues_mkResult_of_ne h).mpr ⟨h1, h2⟩
    show (pairLoop name sl tl 0 ((pyLines st).zip (pyLines tt))).map Prod.fst = _
    rw [pairLoop_keys hforall, List.length_zip, hlen, min_self]
    exact List.map_congr_left (fun i _ => by rw [Nat.zero_add])

/-- C5 witness: a whitespace-only line counts as non-empty and produces a
record, while the empty-string check governs emission. -/
theorem c5_witness :
    (∀ i s t, (pyLines " \nb").get? i = some s → (pyLines "x\ny").get? i = some t →
      (("X" ++ "/" ++ toString i, [("en", s), ("de", t)]) ∈
          readPairs "X" "en" "de" " \nb" "x\ny" ↔ (s ≠ "" ∧ t ≠ ""))) ∧
    ((pyLines " \nb").length = (pyLines "x\ny").length →
      (∀ p ∈ (pyLines " \nb").zip (pyLines "x\ny"), p.1 ≠ "" ∧ p.2 ≠ "") →
      (readPairs "X" "en" "de" " \nb" "x\ny").map Prod.fst =
        (List.range (pyLines " \nb").length).map (fun i => "X" ++ "/" ++ toString i)) :=
  c5_record_iff_both_nonempty "X" "en" "de" " \nb" "x\ny" (by decide)

/-- C6: on source content `"a\nb\n\nc"` and target content
`"x\ny\nz\nw"`, generation yields exactly three records — index 0 with
`("a", "x")`, index 1 with `("b", "y")`, index 3 with `("c", "w")` —
and no record at index 2, whose source line is empty. -/
theorem c6_concrete_three_records (name sl tl : String) (h : sl ≠ tl) :
    readPairs name sl tl "a\nb\n\nc" "x\ny\nz\nw" =
      [(name ++ "/" ++ toString 0, [(sl, "a"), (tl, "x")]),
       (name ++ "/" ++ toString 1, [(sl, "b"), (tl, "y")]),
       (name ++ "/" ++ toString 3, [(sl, "c"), (tl, "w")])] := by
  show pairLoop name sl tl 0 [("a", "x"), ("b", "y"), ("", "z"), ("c", "w")] = _
  simp [pairLoop, mkResult, if_neg h, allValues]

/-- C6 witness: instantiation at name `"X"` and the pair `("en", "de")`. -/
theorem c6_witness :
    readPairs "X" "en" "de" "a\nb\n\nc" "x\ny\nz\nw" =
      [("X" ++ "/" ++ toString 0, [("en", "a"), ("de", "x")]),
       ("X" ++ "/" ++ toString 1, [("en", "b"), ("de", "y")]),
       ("X" ++ "/" ++ toString 3, [("en", "c"), ("de", "w")])] :=
  c6_concrete_three_records "X" "en" "de" (by decide)

/-- C7: when the two files split into different line counts, `zip`
truncates: every emitted record's key comes from an index strictly below
the shorter line count, and no error is produced. -/
theorem c7_zip_truncates (name sl tl st tt : String)
    (h : (pyLines st).length ≠ (pyLines tt).length) :
    ∀ r ∈ readPairs name sl tl st tt,
      ∃ i, i < min (pyLines st).length (pyLines tt).length ∧
        r.1 = name ++ "/" ++ toString i := by
  intro r hr
  rcases pairLoop_mem_inv hr with ⟨i, s, t, hg, hv, hrr⟩
  rcases List.get?_eq_some.mp hg with ⟨hlt, _⟩
  rw [List.length_zip] at hlt
  refine ⟨i, hlt, ?_⟩
  rw [hrr, Nat.zero_add]

/-- C7 witness: a two-line source against a one-line target. -/
theorem c7_witness :
    (pyLines "a\nb").length ≠ (pyLines "x").length ∧
    ∀ r ∈ readPairs "X" "en" "de" "a\nb" "x",
      ∃ i, i < min (pyLines "a\nb").length (pyLines "x").length ∧
        r.1 = "X" ++ "/" ++ toString i :=
  ⟨by decide, c7_zip_truncates "X" "en" "de" "a\nb" "x" (by decide)⟩

/-- C8: for every corpus passing the pair filter, the derived file suffix
is `"{source}-{target}"` in the requested order, the download locator is
the corpus url joined with `"{suffix}.txt.zip"`, and the source/target
file paths are the extracted directory joined with
`"{filename}.{suffix}.{source}"` and `"{filename}.{suffix}.{target}"`. -/
theorem c8_path_construction (dl : String → String) (pair : String × String)
    (names : List String) (subs : List SubDataset)
    (h : opusSubsets pair names = .ok subs) :
    opusSplitGenerators dl pair names = .ok (subs.map (fun item =>
      ⟨item.name,
       osPathJoin (dl (osPathJoin item.url ((pair.1 ++ "-" ++ pair.2) ++ ".txt.zip")))
         (item.filename ++ "." ++ (pair.1 ++ "-" ++ pair.2) ++ "." ++ pair.1),
       osPathJoin (dl (osPathJoin item.url ((pair.1 ++ "-" ++ pair.2) ++ ".txt.zip")))
         (item.filename ++ "." ++ (pair.1 ++ "-" ++ pair.2) ++ "." ++ pair.2)⟩)) := by
  unfold opusSplitGenerators
  rw [h]

/-- C8 witness: resolving `("de", "en")` over `["EMEA"]` with a constant
download collaborator. -/
theorem c8_witness :
    opusSplitGenerators (fun _ => "/dl") ("de", "en") ["EMEA"] =
      .ok ([EMEA].map (fun item =>
        ⟨item.name,
         osPathJoin ((fun _ => "/dl")
             (osPathJoin item.url (("de" ++ "-" ++ "en") ++ ".txt.zip")))
           (item.filename ++ "." ++ ("de" ++ "-" ++ "en") ++ "." ++ "de"),
         osPathJoin ((fun _ => "/dl")
             (osPathJoin item.url (("de" ++ "-" ++ "en") ++ ".txt.zip")))
           (item.filename ++ "." ++ ("de" ++ "-" ++ "en") ++ "." ++ "en")⟩)) :=
  c8_path_construction (fun _ => "/dl") ("de", "en") ["EMEA"] [EMEA] rfl

/-- C9: example generation is deterministic — its output depends only on
the contents the file collaborator returns for the resolved files, so two
runs that read identical contents yield identical record sequences. -/
theorem c9_deterministic (fr1 fr2 : String → String) (sl tl : String)
    (subsets : List ResolvedSubset)
    (h : ∀ s ∈ subsets, fr1 s.source_file = fr2 s.source_file ∧
      fr1 s.target_file = fr2 s.target_file) :
    generateExamples fr1 sl tl subsets = generateExamples fr2 sl tl subsets := by
  induction subsets with
  | nil => rfl
  | cons item rest ih =>
    have hi := h item (List.mem_cons_self _ _)
    simp only [generateExamples, hi.1, hi.2]
    rw [ih (fun s hs => h s (List.mem_cons_of_mem _ hs))]

/-- C9 witness: two distinct collaborators that agree on the resolved
files produce the same records. -/
theorem c9_witness :
    generateExamples (fun _ => "a") "en" "de" [⟨"X", "s", "t"⟩] =
      generateExamples (fun p => if p = "other" then "b" else "a") "en" "de"
        [⟨"X", "s", "t"⟩] :=
  c9_deterministic (fun _ => "a") (fun p => if p = "other" then "b" else "a")
    "en" "de" [⟨"X", "s", "t"⟩] (by decide)

/-- C10: a file content ending in a newline contributes a final
empty-string line, and generation never emits the record that this final
index would produce (its source field would be empty); in particular two
empty file contents generate zero records rather than failing. -/
theorem c10_trailing_newline (name sl tl st tt : String)
    (h : st.data.getLast? = some '\n') :
    (pyLines st).getLast? = some "" ∧
    (∀ t, (name ++ "/" ++ toString ((pyLines st).length - 1), [(sl, ""), (tl, t)]) ∉
      readPairs name sl tl st tt) ∧
    readPairs name sl tl "" "" = [] := by
  refine ⟨pyLines_getLast_of_newline h, ?_, ?_⟩
  · intro t hmem
    rcases pairLoop_mem_inv hmem with ⟨i, s', t', hg, hv, hr⟩
    have hsnd : [(sl, ""), (tl, t)] = mkResult sl tl s' t' := congrArg Prod.snd hr
    have hall := allValues_eq_true_iff.mp hv
    rw [← hsnd] at hall
    exact hall (sl, "") (List.mem_cons_self _ _) rfl
  · show pairLoop name sl tl 0 [("", "")] = []
    by_cases hsl : sl = tl
    · simp [pairLoop, mkResult, hsl, allValues]
    · simp [pairLoop, mkResult, hsl, allValues]

/-- C10 witness: source content `"a\n"` ends with a newline. -/
theorem c10_witness :
    (pyLines "a\n").getLast? = some "" ∧
    (∀ t, ("X" ++ "/" ++ toString ((pyLines "a\n").length - 1), [("en", ""), ("de", t)]) ∉
      readPairs "X" "en" "de" "a\n" "x\ny") ∧
    readPairs "X" "en" "de" "" "" = [] :=
  c10_trailing_newline "X" "en" "de" "a\n" "x\ny" (by decide)
